import Mathlib

/-!
Verification development for the lenstronomy excerpt:
  * `lenstronomy/GalKin/analytic_kinematics.py` (class `AnalyticKinematics`)
  * `lenstronomy/LightModel/linear_basis.py` (class `LinearBasis`)

Floating-point arithmetic is modelled by real arithmetic.  External
collaborators (cosmology, light profile, the Gauss hypergeometric primitive)
are fields of the `Engine` record; the one piece of mutable state (the lazy
interpolation memo `_interp_sigma_r2`) is threaded explicitly as a
`MemoState` value.  Parameter dictionaries are records of optional fields,
and Python exceptions are `Except String`.
-/

noncomputable section

/-- `kwargs_light`: the Hernquist light-parameter dictionary.  Only the keys
read or written by the excerpt are modelled. -/
structure LightKw where
  a : Option ℝ
  Rs : Option ℝ
  r_eff : Option ℝ
  amp : Option ℝ

/-- `kwargs_mass`: the power-law mass-parameter dictionary. -/
structure MassKw where
  theta_E : ℝ
  gamma : ℝ
  rho0_r0_gamma : Option ℝ

/-- `kwargs_anisotropy`: the Osipkov-Merritt anisotropy dictionary. -/
structure AnisoKw where
  r_ani : ℝ

/-- Construction-time configuration of `AnalyticKinematics` together with its
external collaborators: the cosmology (`dd`, `epsilon_crit`,
`arcsec2phys_lens`), the physical constants from `lenstronomy.Util.constants`,
the hypergeometric primitive `vel_util.hyp_2F1` and the Hernquist
`LightProfile` evaluators. -/
structure Engine where
  interpol_grid_num : ℕ
  log_integration : Bool
  max_integrate : ℝ
  min_integrate : ℝ
  dd : ℝ
  epsilon_crit : ℝ
  M_sun : ℝ
  Mpc : ℝ
  arcsec : ℝ
  G : ℝ
  arcsec2phys_lens : ℝ → ℝ
  hyp_2F1 : ℝ → ℝ → ℝ → ℝ → ℝ
  light_3d : ℝ → LightKw → ℝ
  light_2d_finite : ℝ → LightKw → ℝ

/-- The lazily built attribute `_interp_sigma_r2`: absent, or a table of
radial-dispersion values at the `interpol_grid_num` interpolation radii. -/
abbrev MemoState := Option (ℕ → ℝ)

/-- Modelled from the spec: the Osipkov-Merritt anisotropy kernel
`beta(r) = r^2 / (r^2 + r_ani^2)` (section 4.1).  `Anisotropy.beta_r` is
declared in `lenstronomy/GalKin/anisotropy.py`, which is not part of src. -/
def beta_r (r r_ani : ℝ) : ℝ := r ^ 2 / (r ^ 2 + r_ani ^ 2)

/-- Modelled from the spec: the Gauss hypergeometric function 2F1(a,b;c;z)
(the external special-function primitive `vel_util.hyp_2F1`, not part of
src).  We use the Euler integral representation, which agrees with the Gauss
series and its analytic continuation on the parameter range the engine uses
(`c > b > 0` and `z < 1`). -/
def hyp_2F1_gauss (a b c z : ℝ) : ℝ :=
  Real.Gamma c / (Real.Gamma b * Real.Gamma (c - b)) *
    ∫ t in (0 : ℝ)..(1 : ℝ), t ^ (b - 1) * (1 - t) ^ (c - b - 1) * (1 - z * t) ^ (-a)

/-- The Hernquist scale-radius resolution appearing verbatim in both
`draw_light` and `_read_out_params`: key `a` wins, else `Rs`, else
`0.551 * r_eff`, else a `ValueError`. -/
def resolve_light_a (kl : LightKw) : Except String ℝ :=
  match kl.a with
  | some a => .ok a
  | none =>
    match kl.Rs with
    | some rs => .ok rs
    | none =>
      match kl.r_eff with
      | some reff => .ok (0.551 * reff)
      | none => .error "Hernquist half-light radius can not be determined!"

/-- `AnalyticKinematics._rho0_r0_gamma`: equation (14) in Suyu+ 2010. -/
def rho0_r0_gamma_fn (e : Engine) (theta_E gamma : ℝ) : ℝ :=
  -1 * Real.Gamma (gamma / 2) / (Real.sqrt Real.pi * Real.Gamma ((gamma - 3) / 2))
    * theta_E ^ gamma / e.arcsec2phys_lens theta_E
    * e.epsilon_crit * e.M_sun / e.Mpc ^ 3

/-- The write-back step of `_read_out_params`: if `rho0_r0_gamma` is not in
`kwargs_mass`, derive it from `(theta_E, gamma)` and store it. -/
def write_back_rho (e : Engine) (km : MassKw) : MassKw :=
  match km.rho0_r0_gamma with
  | none => { km with rho0_r0_gamma := some (rho0_r0_gamma_fn e km.theta_E km.gamma) }
  | some _ => km

/-- `AnalyticKinematics._read_out_params`.  Returns the resolved tuple
`(a, gamma, rho0_r0_gamma, r_ani)` together with the (possibly mutated)
mass dictionary.  After the write-back the key is always present, so the
`getD` default is never used. -/
def read_out_params (e : Engine) (km : MassKw) (kl : LightKw) (ka : AnisoKw) :
    Except String ((ℝ × ℝ × ℝ × ℝ) × MassKw) :=
  match resolve_light_a kl with
  | .error s => .error s
  | .ok a =>
    let km2 := write_back_rho e km
    .ok ((a, km2.gamma, km2.rho0_r0_gamma.getD 0, ka.r_ani), km2)

/-- First prefactor of `AnalyticKinematics._sigma_r2`. -/
def sigma_r2_prefac1 (e : Engine) (a gamma rho0_r0_gamma : ℝ) : ℝ :=
  4 * Real.pi * e.G * a ^ (-gamma) * rho0_r0_gamma / (3 - gamma)

/-- Second prefactor of `AnalyticKinematics._sigma_r2`. -/
def sigma_r2_prefac2 (r a r_ani : ℝ) : ℝ :=
  r * (r + a) ^ 3 / (r ^ 2 + r_ani ^ 2)

/-- The hypergeometric factor of `AnalyticKinematics._sigma_r2`. -/
def sigma_r2_fac (e : Engine) (r a gamma r_ani : ℝ) : ℝ :=
  r_ani ^ 2 / a ^ 2 * e.hyp_2F1 (2 + gamma) gamma (3 + gamma) (1 / (1 + r / a))
      / ((2 + gamma) * (r / a + 1) ^ (2 + gamma))
    + e.hyp_2F1 3 gamma (1 + gamma) (-a / r) / (gamma * (r / a) ^ gamma)

/-- `AnalyticKinematics._sigma_r2`: equation (19) in Suyu+ 2010, the
closed-form radial velocity dispersion (no caching at this level). -/
def sigma_r2_closed (e : Engine) (r a gamma rho0_r0_gamma r_ani : ℝ) : ℝ :=
  sigma_r2_prefac1 e a gamma rho0_r0_gamma * sigma_r2_prefac2 r a r_ani
    * sigma_r2_fac e r a gamma r_ani * (e.arcsec * e.dd * e.Mpc) ^ 2

/-- The interpolation radii of `_sigma_r2_interp`:
`np.logspace(log10(min_integrate), log10(max_integrate), interpol_grid_num)`. -/
def r_grid (e : Engine) (i : ℕ) : ℝ :=
  (10 : ℝ) ^ (Real.logb 10 e.min_integrate +
    (i : ℝ) * ((Real.logb 10 e.max_integrate - Real.logb 10 e.min_integrate)
      / ((e.interpol_grid_num : ℝ) - 1)))

/-- The table of closed-form dispersions over the interpolation radii, built
by `_sigma_r2_interp` on first call from the parameters of that call. -/
def build_table (e : Engine) (a gamma rho0_r0_gamma r_ani : ℝ) : ℕ → ℝ :=
  fun i => sigma_r2_closed e (r_grid e i) a gamma rho0_r0_gamma r_ani

/-- Piecewise-linear interpolation over `N` equally spaced nodes
`c, c + d, ..., c + (N-1) d` with values `t 0, ..., t (N-1)`, extrapolating
with the first/last segment outside the node range: the bracketing segment
index is the clamped floor of `(x - c) / d`. -/
def interp_core (t : ℕ → ℝ) (c d : ℝ) (N : ℕ) (x : ℝ) : ℝ :=
  let j : ℤ := min (max ⌊(x - c) / d⌋ 0) ((N : ℤ) - 2)
  t j.toNat + (t (j.toNat + 1) - t j.toNat) * ((x - (c + (j : ℝ) * d)) / d)

/-- `scipy.interpolate.interp1d(np.log(r_array), table, fill_value="extrapolate")`
evaluated at abscissa `x`: the nodes `log (r_grid e i) = c + i * d` are
equally spaced in natural log, so this is `interp_core` at
`c = log min_integrate`, `d = (log max_integrate - c)/(interpol_grid_num - 1)`. -/
def interp1d_at (e : Engine) (t : ℕ → ℝ) (x : ℝ) : ℝ :=
  interp_core t (Real.log e.min_integrate)
    ((Real.log e.max_integrate - Real.log e.min_integrate)
      / ((e.interpol_grid_num : ℝ) - 1))
    e.interpol_grid_num x

/-- The `hasattr` check of `_sigma_r2_interp`: reuse the memo if present,
otherwise build the table from the current call's parameters. -/
def ensure_tbl (e : Engine) (st : MemoState) (a gamma rho0_r0_gamma r_ani : ℝ) : ℕ → ℝ :=
  match st with
  | some t => t
  | none => build_table e a gamma rho0_r0_gamma r_ani

/-- `AnalyticKinematics._sigma_r2_interp`: evaluate the (lazily built)
interpolator at `log r`; returns the value and the post-call memo state. -/
def sigma_r2_interp (e : Engine) (st : MemoState) (r a gamma rho0_r0_gamma r_ani : ℝ) :
    ℝ × MemoState :=
  let t := ensure_tbl e st a gamma rho0_r0_gamma r_ani
  (interp1d_at e t (Real.log r), some t)

/-- The value computed by `AnalyticKinematics._sigma_s2` once the memo table
`t` is fixed: `(1 - beta * R^2 / r^2) * sigma_r2_interp(r)`. -/
def sigma_s2_val (e : Engine) (t : ℕ → ℝ) (r R r_ani a gamma rho0_r0_gamma : ℝ) : ℝ :=
  (1 - beta_r r r_ani * R ^ 2 / r ^ 2) * interp1d_at e t (Real.log r)

/-- `AnalyticKinematics._sigma_s2` with the memo state threaded through. -/
def sigma_s2_m (e : Engine) (st : MemoState) (r R r_ani a gamma rho0_r0_gamma : ℝ) :
    ℝ × MemoState :=
  let p := sigma_r2_interp e st r a gamma rho0_r0_gamma r_ani
  ((1 - beta_r r r_ani * R ^ 2 / r ^ 2) * p.1, p.2)

/-- `AnalyticKinematics.delete_cache`: discards `_interp_sigma_r2`. -/
def delete_cache (_st : MemoState) : MemoState := none

/-- `AnalyticKinematics.sigma_r2` (public): resolves the keyword arguments
and evaluates the closed form.  The memo is neither read nor written; the
possibly mutated mass dictionary and the untouched light/anisotropy
dictionaries are returned alongside the value. -/
def sigma_r2 (e : Engine) (st : MemoState) (r : ℝ) (km : MassKw) (kl : LightKw)
    (ka : AnisoKw) : Except String (ℝ × MemoState × MassKw × LightKw × AnisoKw) :=
  match read_out_params e km kl ka with
  | .error s => .error s
  | .ok ((a, gamma, rho, r_ani), km2) =>
    .ok (sigma_r2_closed e r a gamma rho r_ani, st, km2, kl, ka)

/-- `AnalyticKinematics.sigma_s2` (public): returns the projected dispersion
with weight `1`. -/
def sigma_s2 (e : Engine) (st : MemoState) (r R : ℝ) (km : MassKw) (kl : LightKw)
    (ka : AnisoKw) : Except String ((ℝ × ℝ) × MemoState × MassKw × LightKw × AnisoKw) :=
  match read_out_params e km kl ka with
  | .error s => .error s
  | .ok ((a, gamma, rho, r_ani), km2) =>
    let p := sigma_s2_m e st r R r_ani a gamma rho
    .ok ((p.1, 1), p.2, km2, kl, ka)

/-- The `kwargs_light_copy` conversion used before calling the light-profile
collaborator: if `r_eff` is present, replace it by `Rs = r_eff * 0.551` and
`amp = 1`. -/
def convert_light (kl : LightKw) : LightKw :=
  match kl.r_eff with
  | some reff => { kl with Rs := some (reff * 0.551), amp := some 1, r_eff := none }
  | none => kl

/-- The log-space quadrature step of `_I_R_sigma2`:
`dlogr = (log max_integrate - log R) / (interpol_grid_num - 1)`. -/
def log_step (e : Engine) (Rc : ℝ) : ℝ :=
  (Real.log e.max_integrate - Real.log Rc) / ((e.interpol_grid_num : ℝ) - 1)

/-- The log-mode quadrature abscissae:
`np.logspace(log R + dlogr/2, log max_integrate + dlogr/2, interpol_grid_num, base = e)`,
i.e. each sample is shifted by half a log-step. -/
def log_pt (e : Engine) (Rc : ℝ) (i : ℕ) : ℝ :=
  Real.exp (Real.log Rc + log_step e Rc / 2 + (i : ℝ) * log_step e Rc)

/-- `dlog_r = np.log(r_array[2]) - np.log(r_array[1])` as computed in the
source. -/
def dlog_r_src (e : Engine) (Rc : ℝ) : ℝ :=
  Real.log (log_pt e Rc 2) - Real.log (log_pt e Rc 1)

/-- The linear-mode grid step of
`np.linspace(R, max_interpolate, interpol_grid_num)`. -/
def lin_step (e : Engine) (Rc : ℝ) : ℝ :=
  (e.max_integrate - Rc) / ((e.interpol_grid_num : ℝ) - 1)

/-- The linear-mode grid points `r_array i = R + i * step`. -/
def lin_pt (e : Engine) (Rc : ℝ) (i : ℕ) : ℝ := Rc + (i : ℝ) * lin_step e Rc

/-- `dr = r_array[2] - r_array[1]` as computed in the source. -/
def lin_dr (e : Engine) (Rc : ℝ) : ℝ := lin_pt e Rc 2 - lin_pt e Rc 1

/-- The radius at which the quadrature of `_I_R_sigma2` evaluates the
integrand: the half-step shifted log grid in log mode, and
`r_array + dr/2` in linear mode. -/
def quad_radius (e : Engine) (Rc : ℝ) (i : ℕ) : ℝ :=
  if e.log_integration then log_pt e Rc i else lin_pt e Rc i + lin_dr e Rc / 2

/-- `AnalyticKinematics._integrand_suyu10_eq21` for a fixed memo table:
`sigma_s2(r, R) * r / sqrt(r^2 - R^2) * light_3d(r)`. -/
def integrand_suyu10_eq21 (e : Engine) (t : ℕ → ℝ) (r R a gamma rho0_r0_gamma r_ani : ℝ)
    (kl : LightKw) : ℝ :=
  sigma_s2_val e t r R r_ani a gamma rho0_r0_gamma * r / Real.sqrt (r ^ 2 - R ^ 2)
    * e.light_3d r (convert_light kl)

/-- `AnalyticKinematics._I_R_sigma2`: clamp `R`, quadrature of Mamon & Lokas
(2005) eq. A15 over the half-step shifted grid (log or linear), doubled; the
projected surface brightness `I(R)` is obtained separately from the
light-profile collaborator.  The integrand evaluation builds the memo once
(vectorised in the source), so the table is ensured up front. -/
def I_R_sigma2 (e : Engine) (st : MemoState) (R : ℝ) (km : MassKw) (kl : LightKw)
    (ka : AnisoKw) : Except String ((ℝ × ℝ) × MemoState × MassKw × LightKw × AnisoKw) :=
  match read_out_params e km kl ka with
  | .error s => .error s
  | .ok ((a, gamma, rho, r_ani), km2) =>
    let Rc := max R e.min_integrate
    let t := ensure_tbl e st a gamma rho r_ani
    let total :=
      if e.log_integration then
        2 * Finset.sum (Finset.range e.interpol_grid_num)
          (fun i => integrand_suyu10_eq21 e t (quad_radius e Rc i) Rc a gamma rho r_ani kl
            * dlog_r_src e Rc * quad_radius e Rc i)
      else
        2 * Finset.sum (Finset.range e.interpol_grid_num)
          (fun i => integrand_suyu10_eq21 e t (quad_radius e Rc i) Rc a gamma rho r_ani kl
            * lin_dr e Rc)
    .ok ((total, e.light_2d_finite Rc (convert_light kl)), some t, km2, kl, ka)

/-- `AnalyticKinematics.I_R_sigma2_and_IR`: public wrapper of `_I_R_sigma2`. -/
def I_R_sigma2_and_IR (e : Engine) (st : MemoState) (R : ℝ) (km : MassKw) (kl : LightKw)
    (ka : AnisoKw) : Except String ((ℝ × ℝ) × MemoState × MassKw × LightKw × AnisoKw) :=
  I_R_sigma2 e st R km kl ka

/-! ## `lenstronomy/LightModel/linear_basis.py` -/

/-- The keyword arguments of one light model, restricted to the keys the
`LinearBasis` bookkeeping reads or writes. -/
structure LKw where
  amp : List ℝ
  sigma : List ℝ
  n_max : ℕ

/-- `LinearBasis`: the model-name tag list plus the per-profile evaluators
`func_list[i].function` and `func_list[i].function_split` (external light
profiles, abstract here). -/
structure LinearBasis where
  profile_type_list : List String
  func_function : ℕ → ℝ → ℝ → LKw → ℝ
  func_function_split : ℕ → ℝ → ℝ → LKw → List ℝ

/-- The single-amplitude model tags, in the order of `functions_split` (the
same list, in the same order, appears in `num_param_linear_list`). -/
def lb_simple : List String :=
  ["SERSIC", "SERSIC_ELLIPSE", "CORE_SERSIC", "HERNQUIST", "HERNQUIST_ELLIPSE", "PJAFFE",
   "PJAFFE_ELLIPSE", "GAUSSIAN", "GAUSSIAN_ELLIPSE", "POWER_LAW", "NIE", "CHAMELEON",
   "DOUBLE_CHAMELEON", "TRIPLE_CHAMELEON", "UNIFORM", "INTERPOL"]

/-- The single-amplitude model tags in the (permuted) order written in
`update_linear`. -/
def lb_simple_update : List String :=
  ["SERSIC", "SERSIC_ELLIPSE", "CORE_SERSIC", "HERNQUIST", "PJAFFE", "PJAFFE_ELLIPSE",
   "HERNQUIST_ELLIPSE", "GAUSSIAN", "GAUSSIAN_ELLIPSE", "POWER_LAW", "NIE", "CHAMELEON",
   "DOUBLE_CHAMELEON", "TRIPLE_CHAMELEON", "UNIFORM", "INTERPOL"]

/-- The multi-Gaussian model tags (identical list in all three methods). -/
def lb_multi : List String := ["MULTI_GAUSSIAN", "MULTI_GAUSSIAN_ELLIPSE"]

/-- The shapelet model tags (identical list in all three methods). -/
def lb_shape : List String := ["SHAPELETS", "SHAPELETS_POLAR", "SHAPELETS_POLAR_EXP"]

/-- The shapelet amplitude count: `(n_max+1)^2` for `SHAPELETS_POLAR_EXP`,
`(n_max+1)(n_max+2)/2` otherwise (exact integer division). -/
def shape_num (m : String) (n_max : ℕ) : ℕ :=
  if m ∈ ["SHAPELETS_POLAR_EXP"] then (n_max + 1) ^ 2 else (n_max + 1) * (n_max + 2) / 2

/-- Recursion of `LinearBasis.functions_split` (with `k = None`) over the
enumerated `(model, kwargs)` pairs; `i` is the running profile index. -/
def functions_split_aux (B : LinearBasis) (x y : ℝ) :
    ℕ → List (String × LKw) → Except String (List ℝ × ℕ)
  | _, [] => .ok ([], 0)
  | i, (m, kw) :: rest =>
    if m ∈ lb_simple then
      match functions_split_aux B x y (i + 1) rest with
      | .error s => .error s
      | .ok (resp, n) => .ok (B.func_function i x y { kw with amp := [1] } :: resp, n + 1)
    else if m ∈ lb_multi then
      let num := kw.amp.length
      match functions_split_aux B x y (i + 1) rest with
      | .error s => .error s
      | .ok (resp, n) =>
        .ok (B.func_function_split i x y { kw with amp := List.replicate num 1 } ++ resp,
          n + num)
    else if m ∈ lb_shape then
      let num := shape_num m kw.n_max
      match functions_split_aux B x y (i + 1) rest with
      | .error s => .error s
      | .ok (resp, n) =>
        .ok (B.func_function_split i x y { kw with amp := List.replicate num 1 } ++ resp,
          n + num)
    else .error ("model type " ++ m ++ " not valid!")

/-- `LinearBasis.functions_split` with `k = None`. -/
def functions_split (B : LinearBasis) (x y : ℝ) (kwargs_list : List LKw) :
    Except String (List ℝ × ℕ) :=
  functions_split_aux B x y 0 (B.profile_type_list.zip kwargs_list)

/-- Recursion of `LinearBasis.num_param_linear_list` over the enumerated
`(model, kwargs)` pairs. -/
def num_param_linear_aux : List (String × LKw) → Except String (List ℕ)
  | [] => .ok []
  | (m, kw) :: rest =>
    if m ∈ lb_simple then
      match num_param_linear_aux rest with
      | .error s => .error s
      | .ok l => .ok (1 :: l)
    else if m ∈ lb_multi then
      match num_param_linear_aux rest with
      | .error s => .error s
      | .ok l => .ok (kw.sigma.length :: l)
    else if m ∈ lb_shape then
      match num_param_linear_aux rest with
      | .error s => .error s
      | .ok l => .ok (shape_num m kw.n_max :: l)
    else .error ("model type " ++ m ++ " not valid!")

/-- `LinearBasis.num_param_linear_list`. -/
def num_param_linear_list (B : LinearBasis) (kwargs_list : List LKw) :
    Except String (List ℕ) :=
  num_param_linear_aux (B.profile_type_list.zip kwargs_list)

/-- `LinearBasis.num_param_linear` (with `list_return = False`): the sum of
the per-model counts. -/
def num_param_linear (B : LinearBasis) (kwargs_list : List LKw) : Except String ℕ :=
  match num_param_linear_list B kwargs_list with
  | .error s => .error s
  | .ok l => .ok l.sum

/-- Recursion of `LinearBasis.update_linear` over the enumerated
`(model, kwargs)` pairs; `i` is the running amplitude index and `param` the
linear amplitude vector. -/
def update_linear_aux (param : ℕ → ℝ) :
    ℕ → List (String × LKw) → Except String (List LKw × ℕ)
  | i, [] => .ok ([], i)
  | i, (m, kw) :: rest =>
    if m ∈ lb_simple_update then
      match update_linear_aux param (i + 1) rest with
      | .error s => .error s
      | .ok (l, i2) => .ok ({ kw with amp := [param i] } :: l, i2)
    else if m ∈ lb_multi then
      let num := kw.sigma.length
      match update_linear_aux param (i + num) rest with
      | .error s => .error s
      | .ok (l, i2) =>
        .ok ({ kw with amp := (List.range num).map (fun j => param (i + j)) } :: l, i2)
    else if m ∈ lb_shape then
      let num := shape_num m kw.n_max
      match update_linear_aux param (i + num) rest with
      | .error s => .error s
      | .ok (l, i2) =>
        .ok ({ kw with amp := (List.range num).map (fun j => param (i + j)) } :: l, i2)
    else .error ("model type " ++ m ++ " not valid!")

/-- `LinearBasis.update_linear`: writes the amplitudes back into the kwargs
list and returns it with the advanced index. -/
def update_linear (B : LinearBasis) (param : ℕ → ℝ) (i : ℕ) (kwargs_list : List LKw) :
    Except String (List LKw × ℕ) :=
  update_linear_aux param i (B.profile_type_list.zip kwargs_list)

/-! ## Concrete instances used by the witnesses -/

/-- A small concrete engine (all constants `1`, constant collaborators,
three-point grid on `[1, 2]`, log integration). -/
def E0 : Engine :=
  { interpol_grid_num := 3, log_integration := true, max_integrate := 2,
    min_integrate := 1, dd := 1, epsilon_crit := 1, M_sun := 1, Mpc := 1,
    arcsec := 1, G := 1, arcsec2phys_lens := fun _ => 1,
    hyp_2F1 := fun _ _ _ _ => 1, light_3d := fun _ _ => 1,
    light_2d_finite := fun _ _ => 1 }

/-- `E0` with the spec-modelled Gauss hypergeometric primitive. -/
def E1 : Engine := { E0 with hyp_2F1 := hyp_2F1_gauss }

/-- A concrete light dictionary with `a` present. -/
def kl0 : LightKw := { a := some 1, Rs := none, r_eff := none, amp := none }

/-- A concrete mass dictionary with `rho0_r0_gamma` present. -/
def km0 : MassKw := { theta_E := 1, gamma := 2, rho0_r0_gamma := some 1 }

/-- A concrete anisotropy dictionary. -/
def ka0 : AnisoKw := { r_ani := 1 }

/-! ## Claims -/

/-- C4: the Hernquist light-parameter resolution (shared by `sigma_r2`,
`sigma_s2`, the aggregator and `draw_light`) uses `a` directly when present,
else `Rs`, else `0.551 * r_eff`, and errors with a descriptive message if and
only if none of the three keys is present; `{Rs: 2.0}` gives `a = 2.0` and
`{r_eff: 10.0}` gives `a = 5.51`. -/
theorem hernquist_a_resolution (kl : LightKw) :
    (∀ v, kl.a = some v → resolve_light_a kl = .ok v) ∧
    (∀ v, kl.a = none → kl.Rs = some v → resolve_light_a kl = .ok v) ∧
    (∀ v, kl.a = none → kl.Rs = none → kl.r_eff = some v →
      resolve_light_a kl = .ok (0.551 * v)) ∧
    (kl.a = none → kl.Rs = none → kl.r_eff = none →
      resolve_light_a kl = .error "Hernquist half-light radius can not be determined!") ∧
    ((∃ s, resolve_light_a kl = .error s) ↔
      (kl.a = none ∧ kl.Rs = none ∧ kl.r_eff = none)) ∧
    resolve_light_a { a := none, Rs := some 2, r_eff := none, amp := none } = .ok 2 ∧
    resolve_light_a { a := none, Rs := none, r_eff := some 10, amp := none } = .ok 5.51 := by
  refine ⟨?_, ?_, ?_, ?_, ⟨?_, ?_⟩, ?_, ?_⟩
  · intro v hv; simp [resolve_light_a, hv]
  · intro v h1 h2; simp [resolve_light_a, h1, h2]
  · intro v h1 h2 h3; simp [resolve_light_a, h1, h2, h3]
  · intro h1 h2 h3; simp [resolve_light_a, h1, h2, h3]
  · rintro ⟨s, hs⟩
    rcases h1 : kl.a with _ | v
    · rcases h2 : kl.Rs with _ | v
      · rcases h3 : kl.r_eff with _ | v
        · exact ⟨rfl, rfl, rfl⟩
        · simp [resolve_light_a, h1, h2, h3] at hs
      · simp [resolve_light_a, h1, h2] at hs
    · simp [resolve_light_a, h1] at hs
  · rintro ⟨h1, h2, h3⟩
    exact ⟨"Hernquist half-light radius can not be determined!",
      by simp [resolve_light_a, h1, h2, h3]⟩
  · rfl
  · show Except.ok (0.551 * 10) = Except.ok (5.51 : ℝ)
    norm_num

/-- Witness for C4 at a concrete input. -/
theorem hernquist_a_resolution_witness :
    resolve_light_a { a := some 3, Rs := none, r_eff := none, amp := none } = .ok 3 :=
  (hernquist_a_resolution { a := some 3, Rs := none, r_eff := none, amp := none }).1 3 rfl

/-- C5: the projected dispersion satisfies
`sigma_s2(r, R) = (1 - beta(r) R^2 / r^2) * sigma_r2(r)` with `beta` the
Osipkov-Merritt kernel and `sigma_r2` the memoized solver, and at `R = r` it
equals `(1 - beta(r)) * sigma_r2(r)` exactly. -/
theorem sigma_s2_beta_relation (e : Engine) (st : MemoState)
    (r R r_ani a gamma rho : ℝ) (hr : 0 < r) :
    (sigma_s2_m e st r R r_ani a gamma rho).1
      = (1 - beta_r r r_ani * R ^ 2 / r ^ 2) * (sigma_r2_interp e st r a gamma rho r_ani).1 ∧
    beta_r r r_ani = r ^ 2 / (r ^ 2 + r_ani ^ 2) ∧
    (sigma_s2_m e st r r r_ani a gamma rho).1
      = (1 - beta_r r r_ani) * (sigma_r2_interp e st r a gamma rho r_ani).1 := by
  refine ⟨rfl, rfl, ?_⟩
  have h2 : r ^ 2 ≠ 0 := pow_ne_zero 2 (ne_of_gt hr)
  show (1 - beta_r r r_ani * r ^ 2 / r ^ 2) * (sigma_r2_interp e st r a gamma rho r_ani).1
    = (1 - beta_r r r_ani) * (sigma_r2_interp e st r a gamma rho r_ani).1
  rw [mul_div_assoc, div_self h2, mul_one]

/-- Witness for C5 at a concrete input. -/
theorem sigma_s2_beta_relation_witness :
    (sigma_s2_m E0 none 1 1 1 1 2 1).1
      = (1 - beta_r 1 1) * (sigma_r2_interp E0 none 1 1 2 1 1).1 :=
  (sigma_s2_beta_relation E0 none 1 1 1 1 2 1 one_pos).2.2

/-- C6: once the memo has been built, the interpolated solver's output (and
the post-call state) depend only on the radius and the stored table - the
mass/light/anisotropy arguments of the call are ignored, so a parameter
change without invalidation silently reuses the stale table. -/
theorem interp_ignores_params_when_built (e : Engine) (t : ℕ → ℝ)
    (r a1 g1 p1 rani1 a2 g2 p2 rani2 : ℝ) :
    sigma_r2_interp e (some t) r a1 g1 p1 rani1
      = sigma_r2_interp e (some t) r a2 g2 p2 rani2 ∧
    sigma_r2_interp e (some t) r a1 g1 p1 rani1 = (interp1d_at e t (Real.log r), some t) :=
  ⟨rfl, rfl⟩

/-- C1: the closed-form radial dispersion solver returns
`prefac1 * prefac2 * fac * (arcsec * dd * Mpc)^2` exactly as in Suyu+2010
eq. 19, with both hypergeometric evaluations performed in the result and the
memo state passed through untouched (no caching at this level). -/
theorem sigma_r2_closed_form (e : Engine) (st : MemoState) (km : MassKw) (kl : LightKw)
    (ka : AnisoKw) (r a rho : ℝ) (hA : resolve_light_a kl = .ok a)
    (hrho : km.rho0_r0_gamma = some rho) (hr : 0 < r) (ha : 0 < a)
    (hg0 : km.gamma ≠ 0) (hg3 : km.gamma ≠ 3) :
    sigma_r2 e st r km kl ka = .ok
      ((4 * Real.pi * e.G * a ^ (-km.gamma) * rho / (3 - km.gamma))
        * (r * (r + a) ^ 3 / (r ^ 2 + ka.r_ani ^ 2))
        * (ka.r_ani ^ 2 / a ^ 2
            * e.hyp_2F1 (2 + km.gamma) km.gamma (3 + km.gamma) (1 / (1 + r / a))
            / ((2 + km.gamma) * (r / a + 1) ^ (2 + km.gamma))
          + e.hyp_2F1 3 km.gamma (1 + km.gamma) (-a / r)
            / (km.gamma * (r / a) ^ km.gamma))
        * (e.arcsec * e.dd * e.Mpc) ^ 2,
       st, km, kl, ka) := by
  simp [sigma_r2, read_out_params, hA, write_back_rho, hrho, sigma_r2_closed,
    sigma_r2_prefac1, sigma_r2_prefac2, sigma_r2_fac]

/-- Witness for C1 at a concrete input. -/
theorem sigma_r2_closed_form_witness :
    sigma_r2 E0 none 1 km0 kl0 ka0 = .ok
      ((4 * Real.pi * E0.G * (1 : ℝ) ^ (-km0.gamma) * 1 / (3 - km0.gamma))
        * (1 * (1 + 1) ^ 3 / (1 ^ 2 + ka0.r_ani ^ 2))
        * (ka0.r_ani ^ 2 / (1 : ℝ) ^ 2
            * E0.hyp_2F1 (2 + km0.gamma) km0.gamma (3 + km0.gamma) (1 / (1 + 1 / 1))
            / ((2 + km0.gamma) * (1 / 1 + 1) ^ (2 + km0.gamma))
          + E0.hyp_2F1 3 km0.gamma (1 + km0.gamma) (-1 / 1)
            / (km0.gamma * ((1 : ℝ) / 1) ^ km0.gamma))
        * (E0.arcsec * E0.dd * E0.Mpc) ^ 2,
       none, km0, kl0, ka0) :=
  sigma_r2_closed_form E0 none km0 kl0 ka0 1 1 1 rfl rfl one_pos one_pos
    (by norm_num [km0]) (by norm_num [km0])

/-- C8: every dispersion operation mutates the caller's dictionaries in at
most one way: the mass dictionary gains a derived `rho0_r0_gamma` (eq. 14)
exactly when it was absent, is returned unchanged when it was present, the
write-back is idempotent, and the light/anisotropy dictionaries are returned
unchanged by all three operations. -/
theorem kwargs_frame_effects (e : Engine) (st : MemoState) (r R : ℝ) (km : MassKw)
    (kl : LightKw) (ka : AnisoKw) (a : ℝ) (hA : resolve_light_a kl = .ok a) :
    ((write_back_rho e km).theta_E = km.theta_E ∧ (write_back_rho e km).gamma = km.gamma) ∧
    (∀ rho, km.rho0_r0_gamma = some rho → write_back_rho e km = km) ∧
    (km.rho0_r0_gamma = none → write_back_rho e km
      = { km with rho0_r0_gamma := some (rho0_r0_gamma_fn e km.theta_E km.gamma) }) ∧
    write_back_rho e (write_back_rho e km) = write_back_rho e km ∧
    (∃ out, sigma_r2 e st r km kl ka = .ok out) ∧
    (∀ out, sigma_r2 e st r km kl ka = .ok out →
      out.2.1 = st ∧ out.2.2 = (write_back_rho e km, kl, ka)) ∧
    (∀ out, sigma_s2 e st r R km kl ka = .ok out →
      out.2.2 = (write_back_rho e km, kl, ka)) ∧
    (∀ out, I_R_sigma2_and_IR e st R km kl ka = .ok out →
      out.2.2 = (write_back_rho e km, kl, ka)) := by
  have hth : (write_back_rho e km).theta_E = km.theta_E := by
    unfold write_back_rho; cases km.rho0_r0_gamma <;> rfl
  have hga : (write_back_rho e km).gamma = km.gamma := by
    unfold write_back_rho; cases km.rho0_r0_gamma <;> rfl
  refine ⟨⟨hth, hga⟩, ?_, ?_, ?_, ?_, ?_, ?_, ?_⟩
  · intro rho hrho; unfold write_back_rho; rw [hrho]
  · intro hrho; unfold write_back_rho; rw [hrho]
  · unfold write_back_rho
    cases hx : km.rho0_r0_gamma <;> simp [hx]
  · refine ⟨(sigma_r2_closed e r a (write_back_rho e km).gamma
      ((write_back_rho e km).rho0_r0_gamma.getD 0) ka.r_ani,
      st, write_back_rho e km, kl, ka), ?_⟩
    simp [sigma_r2, read_out_params, hA]
  · intro out h
    simp only [sigma_r2, read_out_params, hA, Except.ok.injEq] at h
    cases h
    exact ⟨rfl, rfl⟩
  · intro out h
    simp only [sigma_s2, read_out_params, hA, Except.ok.injEq] at h
    cases h
    rfl
  · intro out h
    simp only [I_R_sigma2_and_IR, I_R_sigma2, read_out_params, hA, Except.ok.injEq] at h
    cases h
    rfl

/-- Witness for C8 at a concrete input. -/
theorem kwargs_frame_effects_witness : write_back_rho E0 km0 = km0 :=
  ((kwargs_frame_effects E0 none 1 1 km0 kl0 ka0 1 rfl).2.1) 1 rfl

/-- C3: with `min_integrate ≤ R < max_integrate` and more than one grid
point, every radius at which the quadrature of `_I_R_sigma2` evaluates the
Suyu eq. 21 integrand lies strictly above `R` (in log mode and in linear
mode), so the radicand `r^2 - R^2` is strictly positive and its square root
is nonzero. -/
theorem quad_radius_avoids_singularity (e : Engine) (R : ℝ) (i : ℕ)
    (hmin : 0 < e.min_integrate) (hR1 : e.min_integrate ≤ R)
    (hR2 : R < e.max_integrate) (hN : 2 ≤ e.interpol_grid_num)
    (hi : i < e.interpol_grid_num) :
    max R e.min_integrate = R ∧
    R < quad_radius e R i ∧
    0 < quad_radius e R i ^ 2 - R ^ 2 ∧
    0 < Real.sqrt (quad_radius e R i ^ 2 - R ^ 2) := by
  have hR0 : 0 < R := lt_of_lt_of_le hmin hR1
  have hN1 : (1 : ℝ) ≤ (e.interpol_grid_num : ℝ) - 1 := by
    have h2 : (2 : ℝ) ≤ (e.interpol_grid_num : ℝ) := by exact_mod_cast hN
    linarith
  have hq : R < quad_radius e R i := by
    unfold quad_radius
    by_cases hmode : e.log_integration
    · simp only [hmode, if_true]
      unfold log_pt
      have hd : 0 < log_step e R := by
        unfold log_step
        exact div_pos (sub_pos.mpr (Real.log_lt_log hR0 hR2)) (by linarith)
      have hid : 0 ≤ (i : ℝ) * log_step e R := mul_nonneg (Nat.cast_nonneg i) hd.le
      calc R = Real.exp (Real.log R) := (Real.exp_log hR0).symm
        _ < Real.exp (Real.log R + log_step e R / 2 + (i : ℝ) * log_step e R) := by
            apply Real.exp_lt_exp.mpr; linarith
    · simp only [hmode, if_false, Bool.false_eq_true]
      have hs : 0 < lin_step e R := by
        unfold lin_step
        exact div_pos (by linarith) (by linarith)
      have hdr : lin_dr e R = lin_step e R := by
        unfold lin_dr lin_pt; push_cast; ring
      rw [hdr]
      unfold lin_pt
      have hid : 0 ≤ (i : ℝ) * lin_step e R := mul_nonneg (Nat.cast_nonneg i) hs.le
      linarith
  have hsq : 0 < quad_radius e R i ^ 2 - R ^ 2 := by nlinarith
  exact ⟨max_eq_left hR1, hq, hsq, Real.sqrt_pos.mpr hsq⟩

/-- Witness for C3 at a concrete input. -/
theorem quad_radius_avoids_singularity_witness :
    max 1 E0.min_integrate = 1 ∧
    (1 : ℝ) < quad_radius E0 1 0 ∧
    0 < quad_radius E0 1 0 ^ 2 - (1 : ℝ) ^ 2 ∧
    0 < Real.sqrt (quad_radius E0 1 0 ^ 2 - (1 : ℝ) ^ 2) :=
  quad_radius_avoids_singularity E0 1 0 (by norm_num [E0]) (by norm_num [E0])
    (by norm_num [E0]) (by norm_num [E0]) (by norm_num [E0])

/-- At an interior or final node `c + i d` with positive spacing, the
piecewise-linear interpolant returns the stored value exactly. -/
theorem interp_core_node (t : ℕ → ℝ) (c d : ℝ) (N : ℕ) (i : ℕ)
    (hd : 0 < d) (hN : 2 ≤ N) (hi : i < N) :
    interp_core t c d N (c + (i : ℝ) * d) = t i := by
  unfold interp_core
  have hdn : d ≠ 0 := ne_of_gt hd
  have harg : (c + (i : ℝ) * d - c) / d = (i : ℝ) := by field_simp
  have hfl : ⌊(c + (i : ℝ) * d - c) / d⌋ = (i : ℤ) := by
    rw [harg]; exact Int.floor_natCast i
  simp only [hfl]
  rw [max_eq_left (Int.natCast_nonneg i)]
  by_cases hc : (i : ℤ) ≤ (N : ℤ) - 2
  · rw [min_eq_left hc]
    have h1 : ((i : ℤ)).toNat = i := Int.toNat_natCast i
    rw [h1]
    have h2 : (((i : ℤ)) : ℝ) = (i : ℝ) := by push_cast; ring
    rw [h2]
    have h3 : c + (i : ℝ) * d - (c + (i : ℝ) * d) = 0 := sub_self _
    rw [h3, zero_div, mul_zero, add_zero]
  · have hieq : i = N - 1 := by omega
    rw [min_eq_right (by omega : (N : ℤ) - 2 ≤ (i : ℤ))]
    have htn : ((N : ℤ) - 2).toNat = N - 2 := by omega
    rw [htn]
    have hcast : ((((N : ℤ) - 2) : ℤ) : ℝ) = (N : ℝ) - 2 := by push_cast; ring
    rw [hcast]
    subst hieq
    have hc1 : ((N - 1 : ℕ) : ℝ) = (N : ℝ) - 1 := by
      rw [Nat.cast_sub (by omega : 1 ≤ N), Nat.cast_one]
    rw [hc1]
    have h21 : N - 2 + 1 = N - 1 := by omega
    rw [h21]
    have harg2 : (c + ((N : ℝ) - 1) * d - (c + ((N : ℝ) - 2) * d)) / d = 1 := by
      field_simp; ring
    rw [harg2]; ring

/-- The natural log of the `i`-th interpolation radius: the nodes handed to
`interp1d` are equally spaced, `log (r_grid e i) = log min + i * d`. -/
theorem log_r_grid (e : Engine) (i : ℕ) (hN : 2 ≤ e.interpol_grid_num) :
    Real.log (r_grid e i) = Real.log e.min_integrate
      + (i : ℝ) * ((Real.log e.max_integrate - Real.log e.min_integrate)
          / ((e.interpol_grid_num : ℝ) - 1)) := by
  unfold r_grid
  rw [Real.log_rpow (by norm_num : (0 : ℝ) < 10)]
  have h10 : Real.log 10 ≠ 0 := ne_of_gt (Real.log_pos (by norm_num))
  have hD : ((e.interpol_grid_num : ℝ) - 1) ≠ 0 := by
    have h2 : (2 : ℝ) ≤ (e.interpol_grid_num : ℝ) := by exact_mod_cast hN
    intro h; rw [sub_eq_zero] at h; rw [h] at h2; norm_num at h2
  simp only [Real.logb]
  field_simp
  ring

/-- The interpolator evaluated at (the log of) a grid radius returns the
stored table value exactly. -/
theorem interp1d_at_node (e : Engine) (t : ℕ → ℝ) (i : ℕ)
    (hmin : 0 < e.min_integrate) (hlt : e.min_integrate < e.max_integrate)
    (hN : 2 ≤ e.interpol_grid_num) (hi : i < e.interpol_grid_num) :
    interp1d_at e t (Real.log (r_grid e i)) = t i := by
  have hN1 : (1 : ℝ) ≤ (e.interpol_grid_num : ℝ) - 1 := by
    have h2 : (2 : ℝ) ≤ (e.interpol_grid_num : ℝ) := by exact_mod_cast hN
    linarith
  have hd : 0 < (Real.log e.max_integrate - Real.log e.min_integrate)
      / ((e.interpol_grid_num : ℝ) - 1) :=
    div_pos (sub_pos.mpr (Real.log_lt_log hmin hlt)) (by linarith)
  rw [log_r_grid e i hN]
  exact interp_core_node t _ _ _ i hd hN hi

/-- C7: on a fresh engine (equivalently, right after `delete_cache`), the
next interpolated-solver call rebuilds the table from the parameters of that
call over the log-spaced interpolation radii, and its value at every grid
radius equals the closed-form solver at that radius for those parameters -
in particular `delete_cache` followed by a changed `r_ani` is consistent
with the new `r_ani`. -/
theorem delete_cache_rebuilds_fresh (e : Engine) (st0 : MemoState)
    (a gamma rho r_ani : ℝ) (i : ℕ)
    (hmin : 0 < e.min_integrate) (hlt : e.min_integrate < e.max_integrate)
    (hN : 2 ≤ e.interpol_grid_num) (hi : i < e.interpol_grid_num) :
    delete_cache st0 = none ∧
    (sigma_r2_interp e (delete_cache st0) (r_grid e i) a gamma rho r_ani).2
      = some (build_table e a gamma rho r_ani) ∧
    (sigma_r2_interp e (delete_cache st0) (r_grid e i) a gamma rho r_ani).1
      = sigma_r2_closed e (r_grid e i) a gamma rho r_ani := by
  refine ⟨rfl, rfl, ?_⟩
  show interp1d_at e (build_table e a gamma rho r_ani) (Real.log (r_grid e i))
    = sigma_r2_closed e (r_grid e i) a gamma rho r_ani
  rw [interp1d_at_node e _ i hmin hlt hN hi]
  rfl

/-- The source's `dlog_r = log r_array[2] - log r_array[1]` equals the
log-space step. -/
theorem dlog_r_src_eq (e : Engine) (Rc : ℝ) : dlog_r_src e Rc = log_step e Rc := by
  unfold dlog_r_src log_pt
  rw [Real.log_exp, Real.log_exp]
  push_cast
  ring

/-- C2: in log mode, the aggregator clamps `R` to `max R min_integrate`,
sums the integrand over the `interpol_grid_num` log-spaced radii shifted by
half a log-step, weighting each sample by `(log-step) * r_i`, doubles the
sum, and returns it paired with the finite-aperture surface brightness
`I(R)` from the light-profile collaborator, which does not depend on the
velocity integral. -/
theorem I_R_sigma2_log_mode (e : Engine) (st : MemoState) (R : ℝ) (km : MassKw)
    (kl : LightKw) (ka : AnisoKw) (a rho : ℝ) (hlog : e.log_integration = true)
    (hA : resolve_light_a kl = .ok a) (hrho : km.rho0_r0_gamma = some rho) :
    I_R_sigma2_and_IR e st R km kl ka = .ok
      ((2 * Finset.sum (Finset.range e.interpol_grid_num) (fun i =>
          integrand_suyu10_eq21 e (ensure_tbl e st a km.gamma rho ka.r_ani)
            (Real.exp (Real.log (max R e.min_integrate)
              + log_step e (max R e.min_integrate) / 2
              + (i : ℝ) * log_step e (max R e.min_integrate)))
            (max R e.min_integrate) a km.gamma rho ka.r_ani kl
          * log_step e (max R e.min_integrate)
          * Real.exp (Real.log (max R e.min_integrate)
              + log_step e (max R e.min_integrate) / 2
              + (i : ℝ) * log_step e (max R e.min_integrate))),
        e.light_2d_finite (max R e.min_integrate) (convert_light kl)),
       some (ensure_tbl e st a km.gamma rho ka.r_ani), km, kl, ka) := by
  have hwb : write_back_rho e km = km := by
    unfold write_back_rho; rw [hrho]
  simp only [I_R_sigma2_and_IR, I_R_sigma2, read_out_params, hA, hwb, hrho,
    Option.getD_some, hlog, if_true, quad_radius, dlog_r_src_eq, log_pt]

/-- Witness for C2 at a concrete input. -/
theorem I_R_sigma2_log_mode_witness :
    I_R_sigma2_and_IR E0 none 1 km0 kl0 ka0 = .ok
      ((2 * Finset.sum (Finset.range E0.interpol_grid_num) (fun i =>
          integrand_suyu10_eq21 E0 (ensure_tbl E0 none 1 km0.gamma 1 ka0.r_ani)
            (Real.exp (Real.log (max 1 E0.min_integrate)
              + log_step E0 (max 1 E0.min_integrate) / 2
              + (i : ℝ) * log_step E0 (max 1 E0.min_integrate)))
            (max 1 E0.min_integrate) 1 km0.gamma 1 ka0.r_ani kl0
          * log_step E0 (max 1 E0.min_integrate)
          * Real.exp (Real.log (max 1 E0.min_integrate)
              + log_step E0 (max 1 E0.min_integrate) / 2
              + (i : ℝ) * log_step E0 (max 1 E0.min_integrate))),
        E0.light_2d_finite (max 1 E0.min_integrate) (convert_light kl0)),
       some (ensure_tbl E0 none 1 km0.gamma 1 ka0.r_ani), km0, kl0, ka0) :=
  I_R_sigma2_log_mode E0 none 1 km0 kl0 ka0 1 1 rfl rfl rfl

/-- The Euler-integral Gauss hypergeometric is nonnegative for `c > b > 0`
and `z ≤ 1`. -/
theorem hyp_2F1_gauss_nonneg (a b c z : ℝ) (hb : 0 < b) (hcb : 0 < c - b)
    (hz : z ≤ 1) : 0 ≤ hyp_2F1_gauss a b c z := by
  unfold hyp_2F1_gauss
  have hc : 0 < c := by linarith
  have hpre : 0 ≤ Real.Gamma c / (Real.Gamma b * Real.Gamma (c - b)) :=
    div_nonneg (Real.Gamma_pos_of_pos hc).le
      (mul_nonneg (Real.Gamma_pos_of_pos hb).le (Real.Gamma_pos_of_pos hcb).le)
  refine mul_nonneg hpre ?_
  apply intervalIntegral.integral_nonneg (by norm_num : (0 : ℝ) ≤ 1)
  intro u hu
  obtain ⟨hu0, hu1⟩ := hu
  have h1 : (0 : ℝ) ≤ u ^ (b - 1) := Real.rpow_nonneg hu0 _
  have h2 : (0 : ℝ) ≤ (1 - u) ^ (c - b - 1) := Real.rpow_nonneg (by linarith) _
  have hbase : (0 : ℝ) ≤ 1 - z * u := by
    rcases le_or_lt z 0 with hz0 | hz0
    · have hzu : z * u ≤ 0 := mul_nonpos_of_nonpos_of_nonneg hz0 hu0
      linarith
    · have hzu : z * u ≤ z := by nlinarith
      linarith
  have h3 : (0 : ℝ) ≤ (1 - z * u) ^ (-a) := Real.rpow_nonneg hbase _
  exact mul_nonneg (mul_nonneg h1 h2) h3

/-- C9: for `r, a, r_ani, rho0_r0_gamma > 0` and `gamma` in `(0, 3)`, with
the hypergeometric primitive being the Gauss 2F1 and a positive
gravitational constant, the closed-form radial dispersion is nonnegative. -/
theorem sigma_r2_closed_nonneg (e : Engine) (r a gamma rho r_ani : ℝ)
    (hH : e.hyp_2F1 = hyp_2F1_gauss) (hG : 0 < e.G) (hr : 0 < r) (ha : 0 < a)
    (hg0 : 0 < gamma) (hg3 : gamma < 3) (hrani : 0 < r_ani) (hrho : 0 < rho) :
    0 ≤ sigma_r2_closed e r a gamma rho r_ani := by
  have hra : 0 < r / a := div_pos hr ha
  have hp1 : 0 ≤ sigma_r2_prefac1 e a gamma rho := by
    unfold sigma_r2_prefac1
    have hag : 0 < a ^ (-gamma) := Real.rpow_pos_of_pos ha _
    have hpi : (0 : ℝ) < 4 * Real.pi := by positivity
    have hnum : 0 < 4 * Real.pi * e.G * a ^ (-gamma) * rho :=
      mul_pos (mul_pos (mul_pos hpi hG) hag) hrho
    exact (div_pos hnum (by linarith)).le
  have hp2 : 0 ≤ sigma_r2_prefac2 r a r_ani := by
    unfold sigma_r2_prefac2
    have hn : 0 ≤ r * (r + a) ^ 3 := by
      have : (0 : ℝ) < r + a := by linarith
      positivity
    have hdn : 0 < r ^ 2 + r_ani ^ 2 := by positivity
    exact div_nonneg hn hdn.le
  have hfac : 0 ≤ sigma_r2_fac e r a gamma r_ani := by
    unfold sigma_r2_fac
    rw [hH]
    have hh1 : 0 ≤ hyp_2F1_gauss (2 + gamma) gamma (3 + gamma) (1 / (1 + r / a)) := by
      apply hyp_2F1_gauss_nonneg _ _ _ _ hg0 (by linarith)
      exact (div_le_one (by linarith)).mpr (by linarith)
    have hh2 : 0 ≤ hyp_2F1_gauss 3 gamma (1 + gamma) (-a / r) := by
      apply hyp_2F1_gauss_nonneg _ _ _ _ hg0 (by linarith)
      rw [neg_div]
      have hax : 0 < a / r := div_pos ha hr
      linarith
    have hterm1 : 0 ≤ r_ani ^ 2 / a ^ 2
        * hyp_2F1_gauss (2 + gamma) gamma (3 + gamma) (1 / (1 + r / a))
        / ((2 + gamma) * (r / a + 1) ^ (2 + gamma)) := by
      apply div_nonneg
      · exact mul_nonneg (by positivity) hh1
      · have hb1 : 0 < r / a + 1 := by linarith
        exact (mul_pos (by linarith : (0 : ℝ) < 2 + gamma)
          (Real.rpow_pos_of_pos hb1 _)).le
    have hterm2 : 0 ≤ hyp_2F1_gauss 3 gamma (1 + gamma) (-a / r)
        / (gamma * (r / a) ^ gamma) :=
      div_nonneg hh2 (mul_pos hg0 (Real.rpow_pos_of_pos hra _)).le
    exact add_nonneg hterm1 hterm2
  unfold sigma_r2_closed
  exact mul_nonneg (mul_nonneg (mul_nonneg hp1 hp2) hfac) (sq_nonneg _)

/-- Witness for C9 at a concrete input. -/
theorem sigma_r2_closed_nonneg_witness : 0 ≤ sigma_r2_closed E1 1 1 2 1 1 :=
  sigma_r2_closed_nonneg E1 1 1 2 1 1 rfl (by norm_num [E1, E0]) one_pos one_pos
    (by norm_num) (by norm_num) one_pos one_pos

/-- Witness for C7 at a concrete input. -/
theorem delete_cache_rebuilds_fresh_witness :
    delete_cache none = none ∧
    (sigma_r2_interp E0 (delete_cache none) (r_grid E0 2) 1 2 1 1).2
      = some (build_table E0 1 2 1 1) ∧
    (sigma_r2_interp E0 (delete_cache none) (r_grid E0 2) 1 2 1 1).1
      = sigma_r2_closed E0 (r_grid E0 2) 1 2 1 1 :=
  delete_cache_rebuilds_fresh E0 none 1 2 1 1 2 (by norm_num [E0])
    (by norm_num [E0]) (by norm_num [E0]) (by norm_num [E0])

/-- The single-amplitude tag list of `update_linear` is a permutation of the
one in `functions_split`/`num_param_linear_list`. -/
theorem mem_lb_simple_update_iff (m : String) :
    m ∈ lb_simple_update ↔ m ∈ lb_simple := by
  simp only [lb_simple, lb_simple_update, List.mem_cons, List.not_mem_nil, or_false]
  tauto

/-- The multi-Gaussian tags are not single-amplitude tags. -/
theorem lb_multi_not_simple (m : String) (hm : m ∈ lb_multi) : m ∉ lb_simple := by
  simp only [lb_multi, List.mem_cons, List.not_mem_nil, or_false] at hm
  rcases hm with rfl | rfl <;> simp [lb_simple]

/-- The shapelet tags are not single-amplitude tags. -/
theorem lb_shape_not_simple (m : String) (hm : m ∈ lb_shape) : m ∉ lb_simple := by
  simp only [lb_shape, List.mem_cons, List.not_mem_nil, or_false] at hm
  rcases hm with rfl | rfl | rfl <;> simp [lb_simple]

/-- The shapelet tags are not multi-Gaussian tags. -/
theorem lb_shape_not_multi (m : String) (hm : m ∈ lb_shape) : m ∉ lb_multi := by
  simp only [lb_shape, List.mem_cons, List.not_mem_nil, or_false] at hm
  rcases hm with rfl | rfl | rfl <;> simp [lb_multi]

/-- Joint induction over the enumerated `(model, kwargs)` pairs: the three
string-dispatched recursions produce the same per-model counts (provided the
multi-Gaussian `amp` and `sigma` arrays have matching lengths and the
collaborator's `function_split` returns one response per amplitude). -/
theorem lb_aux_agree (B : LinearBasis) (x y : ℝ) (param : ℕ → ℝ)
    (hsplit : ∀ i u v kw, (B.func_function_split i u v kw).length = kw.amp.length) :
    ∀ (L : List (String × LKw)),
      (∀ p ∈ L, p.1 ∈ lb_simple ∨ p.1 ∈ lb_multi ∨ p.1 ∈ lb_shape) →
      (∀ p ∈ L, p.1 ∈ lb_multi → p.2.amp.length = p.2.sigma.length) →
      ∀ (i j : ℕ), ∃ nl resp l2,
        num_param_linear_aux L = .ok nl ∧
        functions_split_aux B x y i L = .ok (resp, nl.sum) ∧
        resp.length = nl.sum ∧
        update_linear_aux param j L = .ok (l2, j + nl.sum) := by
  intro L
  induction L with
  | nil =>
    intro _ _ i j
    exact ⟨[], [], [], rfl, rfl, rfl, by simp [update_linear_aux]⟩
  | cons hd tl ih =>
    intro hvalid hmatch i j
    obtain ⟨m, kw⟩ := hd
    have hv := hvalid (m, kw) (List.mem_cons_self _ _)
    have ihv := fun p hp => hvalid p (List.mem_cons_of_mem _ hp)
    have ihm := fun p hp => hmatch p (List.mem_cons_of_mem _ hp)
    rcases hv with hs | hm | hsh
    · obtain ⟨nl, resp, l2, h1, h2, h3, h4⟩ := ih ihv ihm (i + 1) (j + 1)
      refine ⟨1 :: nl, B.func_function i x y { kw with amp := [1] } :: resp,
        { kw with amp := [param j] } :: l2, ?_, ?_, ?_, ?_⟩
      · simp [num_param_linear_aux, hs, h1]
      · have hsum : (1 :: nl).sum = nl.sum + 1 := by
          simp [List.sum_cons, Nat.add_comm]
        simp [functions_split_aux, hs, h2, hsum]
      · simp [h3, List.sum_cons, Nat.add_comm]
      · have hsu : m ∈ lb_simple_update := (mem_lb_simple_update_iff m).mpr hs
        have hsum : j + (1 :: nl).sum = j + 1 + nl.sum := by
          simp [List.sum_cons]; omega
        simp [update_linear_aux, hsu, h4, hsum]
        omega
    · have hns : m ∉ lb_simple := lb_multi_not_simple m hm
      have hnsu : m ∉ lb_simple_update := fun h =>
        hns ((mem_lb_simple_update_iff m).mp h)
      have hlen : kw.amp.length = kw.sigma.length :=
        hmatch (m, kw) (List.mem_cons_self _ _) hm
      obtain ⟨nl, resp, l2, h1, h2, h3, h4⟩ := ih ihv ihm (i + 1) (j + kw.sigma.length)
      refine ⟨kw.sigma.length :: nl,
        B.func_function_split i x y { kw with amp := List.replicate kw.amp.length 1 }
          ++ resp,
        { kw with amp := (List.range kw.sigma.length).map (fun k => param (j + k)) }
          :: l2, ?_, ?_, ?_, ?_⟩
      · simp [num_param_linear_aux, hns, hm, h1]
      · have hsum : (kw.sigma.length :: nl).sum = nl.sum + kw.amp.length := by
          simp [List.sum_cons, hlen, Nat.add_comm]
        simp [functions_split_aux, hns, hm, h2, hsum]
      · simp [List.length_append, hsplit, List.length_replicate, h3, List.sum_cons,
          hlen, Nat.add_comm]
      · have hsum : j + (kw.sigma.length :: nl).sum = j + kw.sigma.length + nl.sum := by
          simp [List.sum_cons]; omega
        simp [update_linear_aux, hnsu, hm, h4, hsum]
        omega
    · have hns : m ∉ lb_simple := lb_shape_not_simple m hsh
      have hnsu : m ∉ lb_simple_update := fun h =>
        hns ((mem_lb_simple_update_iff m).mp h)
      have hnm : m ∉ lb_multi := lb_shape_not_multi m hsh
      obtain ⟨nl, resp, l2, h1, h2, h3, h4⟩ :=
        ih ihv ihm (i + 1) (j + shape_num m kw.n_max)
      refine ⟨shape_num m kw.n_max :: nl,
        B.func_function_split i x y
          { kw with amp := List.replicate (shape_num m kw.n_max) 1 } ++ resp,
        { kw with amp := (List.range (shape_num m kw.n_max)).map (fun k => param (j + k)) }
          :: l2, ?_, ?_, ?_, ?_⟩
      · simp [num_param_linear_aux, hns, hnm, hsh, h1]
      · have hsum : (shape_num m kw.n_max :: nl).sum = nl.sum + shape_num m kw.n_max := by
          simp [List.sum_cons, Nat.add_comm]
        simp [functions_split_aux, hns, hnm, hsh, h2, hsum]
      · simp [List.length_append, hsplit, List.length_replicate, h3, List.sum_cons,
          Nat.add_comm]
      · have hsum : j + (shape_num m kw.n_max :: nl).sum
            = j + shape_num m kw.n_max + nl.sum := by
          simp [List.sum_cons]; omega
        simp [update_linear_aux, hnsu, hnm, hsh, h4, hsum]
        omega

/-- C10: over any supported model list with matching kwargs, the count
returned by `functions_split` equals `num_param_linear` (the sum of
`num_param_linear_list`), the response list has that same length, and
`update_linear` advances its index by exactly that count; an unsupported
model tag yields the same `model type ... not valid!` error in all three
methods. -/
theorem linear_basis_count_agreement (B : LinearBasis) (x y : ℝ) (param : ℕ → ℝ)
    (i0 : ℕ) (kwargs_list : List LKw)
    (hlen : kwargs_list.length = B.profile_type_list.length)
    (hsplit : ∀ i u v kw, (B.func_function_split i u v kw).length = kw.amp.length)
    (hvalid : ∀ p ∈ B.profile_type_list.zip kwargs_list,
      p.1 ∈ lb_simple ∨ p.1 ∈ lb_multi ∨ p.1 ∈ lb_shape)
    (hmatch : ∀ p ∈ B.profile_type_list.zip kwargs_list,
      p.1 ∈ lb_multi → p.2.amp.length = p.2.sigma.length) :
    (∃ n resp kwargs2,
      num_param_linear B kwargs_list = .ok n ∧
      functions_split B x y kwargs_list = .ok (resp, n) ∧
      resp.length = n ∧
      update_linear B param i0 kwargs_list = .ok (kwargs2, i0 + n)) ∧
    (∀ m kw, m ∉ lb_simple → m ∉ lb_multi → m ∉ lb_shape →
      num_param_linear ⟨[m], B.func_function, B.func_function_split⟩ [kw]
          = .error ("model type " ++ m ++ " not valid!") ∧
      functions_split ⟨[m], B.func_function, B.func_function_split⟩ x y [kw]
          = .error ("model type " ++ m ++ " not valid!") ∧
      update_linear ⟨[m], B.func_function, B.func_function_split⟩ param i0 [kw]
          = .error ("model type " ++ m ++ " not valid!")) := by
  constructor
  · obtain ⟨nl, resp, l2, h1, h2, h3, h4⟩ :=
      lb_aux_agree B x y param hsplit (B.profile_type_list.zip kwargs_list)
        hvalid hmatch 0 i0
    exact ⟨nl.sum, resp, l2,
      by simp [num_param_linear, num_param_linear_list, h1],
      h2, h3, h4⟩
  · intro m kw h1 h2 h3
    have h1u : m ∉ lb_simple_update := fun h => h1 ((mem_lb_simple_update_iff m).mp h)
    refine ⟨?_, ?_, ?_⟩
    · simp [num_param_linear, num_param_linear_list, num_param_linear_aux,
        List.zip, h1, h2, h3]
    · simp [functions_split, functions_split_aux, List.zip, h1, h2, h3]
    · simp [update_linear, update_linear_aux, List.zip, h1u, h2, h3]

/-- A concrete one-model basis used by the C10 witness. -/
def B0 : LinearBasis :=
  { profile_type_list := ["SERSIC"],
    func_function := fun _ _ _ _ => 0,
    func_function_split := fun _ _ _ kw => kw.amp.map (fun _ => 0) }

/-- A concrete light-model kwargs value used by the C10 witness. -/
def lkw0 : LKw := { amp := [1], sigma := [1], n_max := 0 }

/-- Witness for C10 at a concrete input. -/
theorem linear_basis_count_agreement_witness :
    ∃ n resp kwargs2,
      num_param_linear B0 [lkw0] = .ok n ∧
      functions_split B0 0 0 [lkw0] = .ok (resp, n) ∧
      resp.length = n ∧
      update_linear B0 (fun _ => 0) 5 [lkw0] = .ok (kwargs2, 5 + n) :=
  (linear_basis_count_agreement B0 0 0 (fun _ => 0) 5 [lkw0] rfl
    (by intro i u v kw; simp [B0])
    (by
      intro p hp
      simp only [show B0.profile_type_list.zip [lkw0] = [("SERSIC", lkw0)] from rfl,
        List.mem_cons, List.not_mem_nil, or_false] at hp
      subst hp
      left
      simp [lb_simple])
    (by
      intro p hp hm
      simp only [show B0.profile_type_list.zip [lkw0] = [("SERSIC", lkw0)] from rfl,
        List.mem_cons, List.not_mem_nil, or_false] at hp
      subst hp
      simp [lb_multi] at hm)).1

end
